import Mathlib

/-!
Verification of the matchms/Spec2Vec helper pipeline.

The development shallowly embeds the Python sources:
  matchms/helper_functions.py        (create_distance_network, calculate_similarities)
  matchms/similarity/IntersectMz.py  (IntersectMz.__call__)
  matchms/filtering/select_by_intensity.py
  matchms/filtering/select_by_relative_intensity.py

Numeric values are modelled by the rationals; Python integers used as node
identifiers are modelled by Int; numpy arrays are modelled by lists, with
out-of-range indexing surfaced as an Except error, mirroring the IndexError
or broadcast ValueError the interpreter raises.  The min/max connection
counts and neighbour counts are modelled over the documented non-negative
configurations.
-/

namespace Matchms

/-- Access row i of a 2-D array; IndexError becomes an Except error. -/
def getRow (m : List (List α)) (i : Nat) : Except String (List α) :=
  match m[i]? with
  | some r => Except.ok r
  | none => Except.error ("index out of range")

/-- Access entry (i, j) of a 2-D array; IndexError becomes an Except error. -/
def getEntry (m : List (List α)) (i j : Nat) : Except String α :=
  match getRow m i with
  | Except.ok r =>
    match r[j]? with
    | some x => Except.ok x
    | none => Except.error ("index out of range")
  | Except.error e => Except.error e

/-- Model of numpy.where(row < cutoff)[0]: the ascending list of column
indices whose entry lies strictly below the cutoff. -/
def npWhere (row : List ℚ) (cutoff : ℚ) : List Nat :=
  (List.range row.length).filter (fun j => decide (row.getD j 0 < cutoff))

/-- Stage 2 of create_distance_network: if more candidates than
max_connections, keep the first max_connections + 1 of them. -/
def truncMax (idx : List Nat) (maxc : Nat) : List Nat :=
  if maxc < idx.length then idx.take (maxc + 1) else idx

/-- Stage 3 of create_distance_network: if at most min_connections
candidates remain, replace them by numpy.arange(0, min_connections + 1). -/
def fallbackMin (idx : List Nat) (minc : Nat) : List Nat :=
  if idx.length ≤ minc then List.range (minc + 1) else idx

/-- The candidate column indices that survive both degree-bound stages for
one row of the distance matrix. -/
def finalIdx (row : List ℚ) (cutoff : ℚ) (maxc minc : Nat) : List Nat :=
  fallbackMin (truncMax (npWhere row cutoff) maxc) minc

/-- One step of the edge list comprehension
[(i, int(cdistances_ids[i, x]), float(cdistances[i, x])) for x in idx
 if cdistances_ids[i, x] != i]: the id entry is read first (for the filter),
then the distance entry, each read able to raise. -/
def edgeStep (ids : List (List Int)) (dists : List (List ℚ)) (i : Nat)
    (acc : List (Int × Int × ℚ)) (x : Nat) : Except String (List (Int × Int × ℚ)) :=
  match getEntry ids i x with
  | Except.error e => Except.error e
  | Except.ok id =>
    if id = (i : Int) then Except.ok acc
    else
      match getEntry dists i x with
      | Except.error e => Except.error e
      | Except.ok d => Except.ok (acc ++ [((i : Int), id, d)])

/-- The weighted edges contributed by node i in create_distance_network. -/
def rowEdges (ids : List (List Int)) (dists : List (List ℚ)) (cutoff : ℚ)
    (maxc minc i : Nat) : Except String (List (Int × Int × ℚ)) :=
  match getRow dists i with
  | Except.error e => Except.error e
  | Except.ok row => (finalIdx row cutoff maxc minc).foldlM (edgeStep ids dists i) []

/-- A networkx graph: insertion-ordered node list plus weighted undirected
edges keyed by their canonically ordered endpoint pair. -/
structure PyGraph where
  nodes : List Int
  edges : List ((Int × Int) × ℚ)
deriving Repr, DecidableEq

/-- networkx adds a node only when it is not present yet. -/
def addNode (nodes : List Int) (n : Int) : List Int :=
  if nodes.contains n then nodes else nodes ++ [n]

/-- Canonical key of an undirected edge. -/
def edgeKey (u v : Int) : Int × Int :=
  if u ≤ v then (u, v) else (v, u)

/-- networkx add_edge: update the weight when the pair exists, append otherwise. -/
def setEdge (es : List ((Int × Int) × ℚ)) (u v : Int) (w : ℚ) :
    List ((Int × Int) × ℚ) :=
  if es.any (fun p => p.1 = edgeKey u v) then
    es.map (fun p => if p.1 = edgeKey u v then (p.1, w) else p)
  else es ++ [(edgeKey u v, w)]

/-- networkx Graph.add_edge with a weight, also inserting unseen endpoints. -/
def addEdge (g : PyGraph) (u v : Int) (w : ℚ) : PyGraph :=
  { nodes := addNode (addNode g.nodes u) v, edges := setEdge g.edges u v w }

/-- networkx Graph.add_weighted_edges_from. -/
def addWeightedEdgesFrom (g : PyGraph) (es : List (Int × Int × ℚ)) : PyGraph :=
  es.foldl (fun g e => addEdge g e.1 e.2.1 e.2.2) g

/-- Shallow embedding of create_distance_network from
matchms/helper_functions.py: nodes 0..N-1 are added up front, then each row
contributes the edges of rowEdges; any out-of-range array access aborts the
call with an error, as in Python. -/
def create_distance_network (cdistances_ids : List (List Int))
    (cdistances : List (List ℚ)) (cutoff_dist : ℚ)
    (max_connections min_connections : Nat) : Except String PyGraph :=
  (List.range cdistances_ids.length).foldlM
    (fun g i =>
      match rowEdges cdistances_ids cdistances cutoff_dist max_connections min_connections i with
      | Except.error e => Except.error e
      | Except.ok es => Except.ok (addWeightedEdgesFrom g es))
    { nodes := (List.range cdistances_ids.length).map Int.ofNat, edges := [] }

/-- Returns true exactly on Except.ok, mirroring a call that did not raise. -/
def exceptOk : Except String γ → Bool
  | Except.ok _ => true
  | Except.error _ => false

/-- Peak arrays of a spectrum: parallel mz and intensity sequences. -/
structure Spikes where
  mz : List ℚ
  intensities : List ℚ
deriving Repr, DecidableEq

/-- A spectrum as consumed by the similarity and filtering functions. -/
structure Spectrum where
  peaks : Spikes
deriving Repr, DecidableEq

/-- The all-versus-all distance matrix scipy cdist(vectors, vectors, method)
builds, for an abstract pairwise metric. -/
def cdistM (metric : List ℚ → List ℚ → ℚ) (vectors : List (List ℚ)) :
    List (List ℚ) :=
  vectors.map (fun a => vectors.map (fun b => metric a b))

/-- Sum of all entries of a 2-D array. -/
def flatSum (m : List (List ℚ)) : ℚ :=
  (m.map List.sum).sum

/-- Number of entries of a 2-D array. -/
def flatLen (m : List (List ℚ)) : Nat :=
  (m.map List.length).sum

/-- Model of numpy.mean over a 2-D array: total sum over total count. -/
def npMean (m : List (List ℚ)) : ℚ :=
  flatSum m / (flatLen m : ℚ)

/-- The documented contract of numpy argsort with its default
kind=quicksort, as calculate_similarities invokes it: some permutation of
all column indices of the row, ordered by non-decreasing entry value.  The
relative order of equal values is unspecified; numpy guarantees stability
only for the stable and mergesort kinds, so any ranking satisfying this
contract is a possible behaviour of the program. -/
def IsArgsortOf (row : List ℚ) (p : List Nat) : Prop :=
  p.Perm (List.range row.length) ∧
  List.Pairwise (fun a b => row.getD a 0 ≤ row.getD b 0) p

/-- Comparison used by one particular IsArgsortOf-conforming ranking:
ascending entry value, equal values ranked by ascending column index.  It
is used to keep the embedding executable; the program itself promises only
IsArgsortOf. -/
def rankLeB (row : List ℚ) (a b : Nat) : Bool :=
  decide (row.getD a 0 < row.getD b 0) ||
    (decide (row.getD a 0 = row.getD b 0) && decide (a ≤ b))

/-- The rankLeB comparison as a decidable relation. -/
def rankLe (row : List ℚ) : Nat → Nat → Prop :=
  fun a b => rankLeB row a b = true

instance (row : List ℚ) : DecidableRel (rankLe row) :=
  fun _ _ => inferInstanceAs (Decidable (_ = true))

instance (row : List ℚ) : IsTotal Nat (rankLe row) := by
  constructor
  intro a b
  simp only [rankLe, rankLeB, Bool.or_eq_true, Bool.and_eq_true, decide_eq_true_eq]
  rcases lt_trichotomy (row.getD a 0) (row.getD b 0) with h | h | h
  · exact Or.inl (Or.inl h)
  · rcases Nat.le_total a b with hab | hab
    · exact Or.inl (Or.inr ⟨h, hab⟩)
    · exact Or.inr (Or.inr ⟨h.symm, hab⟩)
  · exact Or.inr (Or.inl h)

instance (row : List ℚ) : IsTrans Nat (rankLe row) := by
  constructor
  intro a b c hab hbc
  simp only [rankLe, rankLeB, Bool.or_eq_true, Bool.and_eq_true, decide_eq_true_eq] at *
  rcases hab with h1 | ⟨h1, h1i⟩
  · rcases hbc with h2 | ⟨h2, _⟩
    · exact Or.inl (h1.trans h2)
    · exact Or.inl (h2 ▸ h1)
  · rcases hbc with h2 | ⟨h2, h2i⟩
    · exact Or.inl (h1 ▸ h2)
    · exact Or.inr ⟨h1.trans h2, h1i.trans h2i⟩

/-- One concrete IsArgsortOf-conforming ranking (ties by ascending index),
standing in for the unspecified tie order of numpy argsort so that the
model stays executable.  Statements about tie order must quantify over all
IsArgsortOf-conforming rankings instead of appealing to this choice. -/
def argsort (row : List ℚ) : List Nat :=
  List.insertionSort (rankLe row) (List.range row.length)

/-- The per-row id selection of calculate_similarities with the argsort
implementation abstract: row i holds the first num_hits positions of some
ranking of distance row i. -/
def topkIdsWith (asort : List ℚ → List Nat) (cdist : List (List ℚ)) (k : Nat) :
    List (List Nat) :=
  cdist.map (fun row => (asort row).take k)

/-- The per-row score selection of calculate_similarities with the argsort
implementation abstract: 1 - cdist[i, j] for every selected column j. -/
def topkSimsWith (asort : List ℚ → List Nat) (cdist : List (List ℚ)) (k : Nat) :
    List (List ℚ) :=
  cdist.map (fun row => ((asort row).take k).map (fun j => 1 - row.getD j 0))

/-- calculate_similarities with the argsort implementation abstract: the
source calls the external row.argsort(), whose default quicksort kind
promises only the IsArgsortOf contract, so the program denotes this
function at some unknown conforming implementation. -/
def calculate_similaritiesWith (asort : List ℚ → List Nat)
    (vectors : List (List ℚ)) (metric : List ℚ → List ℚ → ℚ) (num_hits : Int) :
    Except String (List (List Nat) × List (List ℚ) × ℚ) :=
  if vectors.length = 0 then Except.error ("XA must be a 2-dimensional array")
  else if !(vectors.all (fun w => w.length == (vectors.headD []).length)) then
    Except.error ("inhomogeneous array")
  else
    let cdist := cdistM metric vectors
    let mean_similarity := 1 - npMean cdist
    if num_hits < 0 then Except.error ("negative dimensions are not allowed")
    else if vectors.length < num_hits.toNat then
      Except.error ("could not broadcast input array")
    else
      Except.ok (topkIdsWith asort cdist num_hits.toNat,
        topkSimsWith asort cdist num_hits.toNat, mean_similarity)

/-- Shallow embedding of IntersectMz.__call__ from
matchms/similarity/IntersectMz.py: Jaccard overlap of the two exact mz sets,
0 when the union is empty. -/
def IntersectMz (spectrum reference_spectrum : Spectrum) : ℚ :=
  let mz := spectrum.peaks.mz.toFinset
  let mzRef := reference_spectrum.peaks.mz.toFinset
  let intersected := mz ∩ mzRef
  let unioned := mz ∪ mzRef
  if unioned.card = 0 then 0 else (intersected.card : ℚ) / (unioned.card : ℚ)

/-- Spectrum.clone of matchms: a fresh object carrying copies of the peak
arrays.  The heap model below makes the freshness observable. -/
def Spectrum.clone (s : Spectrum) : Spectrum :=
  { peaks := { mz := s.peaks.mz, intensities := s.peaks.intensities } }

/-- A heap of spectrum objects; an address is a position, allocation appends. -/
abbrev Heap : Type := List Spectrum

/-- The peak filter of select_by_intensity: keep the (mz, intensity) pairs
whose intensity lies in [intensity_from, intensity_to]. -/
def intensityFilter (s : Spectrum) (intensity_from intensity_to : ℚ) : Spectrum :=
  let kept := (s.peaks.mz.zip s.peaks.intensities).filter
    (fun p => decide (intensity_from ≤ p.2) && decide (p.2 ≤ intensity_to))
  { peaks := { mz := kept.map Prod.fst, intensities := kept.map Prod.snd } }

/-- Model of numpy.max over a nonempty array, 0 in the (erroring) empty case. -/
def npMaxD : List ℚ → ℚ
  | [] => 0
  | x :: xs => xs.foldl max x

/-- The peak filter of select_by_relative_intensity: scale intensities by
their maximum, keep pairs whose scaled intensity lies in the bounds, and
store the original (unscaled) intensities of the kept pairs. -/
def relativeFilter (s : Spectrum) (intensity_from intensity_to : ℚ) : Spectrum :=
  let scale := npMaxD s.peaks.intensities
  let kept := (s.peaks.mz.zip s.peaks.intensities).filter
    (fun p => decide (intensity_from ≤ p.2 / scale) && decide (p.2 / scale ≤ intensity_to))
  { peaks := { mz := kept.map Prod.fst, intensities := kept.map Prod.snd } }

/-- Shallow embedding of select_by_intensity from
matchms/filtering/select_by_intensity.py over an explicit object heap: a
None spectrum is returned at once; otherwise a clone is allocated, the
bound assertion may raise, and the filtered peaks are written to the clone,
whose address is returned. -/
def select_by_intensity (h : Heap) (spectrum_in : Option Nat)
    (intensity_from intensity_to : ℚ) : Except String (Heap × Option Nat) :=
  match spectrum_in with
  | none => Except.ok (h, none)
  | some a =>
    match h[a]? with
    | none => Except.error ("invalid reference")
    | some sin =>
      let spectrum := sin.clone
      let hAlloc := h ++ [spectrum]
      let aClone := h.length
      if intensity_from ≤ intensity_to then
        Except.ok (hAlloc.set aClone (intensityFilter spectrum intensity_from intensity_to),
          some aClone)
      else Except.error ("intensity_from should be smaller than or equal to intensity_to")

/-- Shallow embedding of select_by_relative_intensity from
matchms/filtering/select_by_relative_intensity.py over an explicit object
heap: a None spectrum is returned at once; otherwise a clone is allocated,
the three bound assertions may raise, numpy.max raises on an empty peak
array, and the filtered peaks are written to the clone, whose address is
returned. -/
def select_by_relative_intensity (h : Heap) (spectrum_in : Option Nat)
    (intensity_from intensity_to : ℚ) : Except String (Heap × Option Nat) :=
  match spectrum_in with
  | none => Except.ok (h, none)
  | some a =>
    match h[a]? with
    | none => Except.error ("invalid reference")
    | some sin =>
      let spectrum := sin.clone
      let hAlloc := h ++ [spectrum]
      let aClone := h.length
      if ¬ (0 ≤ intensity_from) then
        Except.error ("intensity_from should be larger than or equal to 0")
      else if ¬ (intensity_to ≤ 1) then
        Except.error ("intensity_to should be smaller than or equal to 1.0")
      else if ¬ (intensity_from ≤ intensity_to) then
        Except.error ("intensity_from should be smaller than or equal to intensity_to")
      else
        match spectrum.peaks.intensities with
        | [] => Except.error ("zero-size array to reduction operation maximum")
        | _ :: _ =>
          Except.ok (hAlloc.set aClone (relativeFilter spectrum intensity_from intensity_to),
            some aClone)

/-! ### Helper lemmas -/

theorem exceptOk_error {γ : Type} {x : Except String γ} (h : ∃ e, x = Except.error e) :
    exceptOk x = false := by
  obtain ⟨e, he⟩ := h
  subst he
  rfl

theorem foldlM_ok_ind {α β : Type} (f : β → α → Except String β) (P : β → Prop) :
    ∀ (l : List α) (init : β), P init →
      (∀ b a b2, a ∈ l → P b → f b a = Except.ok b2 → P b2) →
      ∀ out, l.foldlM f init = Except.ok out → P out := by
  intro l
  induction l with
  | nil =>
    intro init hinit _ out hout
    simp only [List.foldlM_nil] at hout
    cases hout
    exact hinit
  | cons a t ih =>
    intro init hinit hstep out hout
    simp only [List.foldlM_cons] at hout
    cases hfa : f init a with
    | error e => rw [hfa] at hout; cases hout
    | ok b =>
      rw [hfa] at hout
      refine ih b (hstep init a b (List.mem_cons_self a t) hinit hfa) ?_ out hout
      intro b1 a1 b2 ha1 hb1 hf
      exact hstep b1 a1 b2 (List.mem_cons_of_mem a ha1) hb1 hf

theorem foldlM_err {α β : Type} (f : β → α → Except String β) (a : α)
    (herr : ∀ b, ∃ e, f b a = Except.error e) :
    ∀ (l : List α), a ∈ l → ∀ init, ∃ e, l.foldlM f init = Except.error e := by
  intro l
  induction l with
  | nil => intro hmem; cases hmem
  | cons b t ih =>
    intro hmem init
    rcases List.mem_cons.mp hmem with hab | hat
    · subst hab
      obtain ⟨e, he⟩ := herr init
      refine ⟨e, ?_⟩
      simp only [List.foldlM_cons, he]
      rfl
    · cases hfb : f init b with
      | error e =>
        refine ⟨e, ?_⟩
        simp only [List.foldlM_cons, hfb]
        rfl
      | ok b2 =>
        obtain ⟨e, he⟩ := ih hat b2
        refine ⟨e, ?_⟩
        simp only [List.foldlM_cons, hfb]
        exact he

theorem getRow_ok {α : Type} {m : List (List α)} {i : Nat} {r : List α}
    (h : m[i]? = some r) : getRow m i = Except.ok r := by
  simp only [getRow, h]

theorem getEntry_ok {α : Type} {m : List (List α)} {i : Nat} {r : List α}
    (h : m[i]? = some r) {j : Nat} {x : α} (hj : r[j]? = some x) :
    getEntry m i j = Except.ok x := by
  simp only [getEntry, getRow_ok h, hj]

theorem getEntry_err {α : Type} {m : List (List α)} {i : Nat} {r : List α}
    (h : m[i]? = some r) {j : Nat} (hj : r.length ≤ j) :
    getEntry m i j = Except.error ("index out of range") := by
  simp only [getEntry, getRow_ok h, List.getElem?_eq_none hj]

theorem getEntry_ok_mem {α : Type} {m : List (List α)} {i j : Nat} {x : α}
    (h : getEntry m i j = Except.ok x) : ∃ r ∈ m, x ∈ r := by
  cases hi : m[i]? with
  | none => simp only [getEntry, getRow, hi] at h; cases h
  | some r =>
    cases hj : r[j]? with
    | none => simp only [getEntry, getRow, hi, hj] at h; cases h
    | some y =>
      simp only [getEntry, getRow, hi, hj, Except.ok.injEq] at h
      subst h
      exact ⟨r, List.getElem?_mem hi, List.getElem?_mem hj⟩

theorem getElem?_eq_some_getD {α : Type} [Inhabited α] {l : List α} {j : Nat}
    (hj : j < l.length) (d : α) : l[j]? = some (l.getD j d) := by
  rw [List.getElem?_eq_getElem hj, List.getD_eq_getElem?_getD]
  rw [List.getElem?_eq_getElem hj]
  rfl

theorem npWhere_length_le (row : List ℚ) (cutoff : ℚ) :
    (npWhere row cutoff).length ≤ row.length := by
  calc (npWhere row cutoff).length ≤ (List.range row.length).length :=
        (List.filter_sublist _).length_le
  _ = row.length := List.length_range row.length

theorem truncMax_length_le (idx : List Nat) (maxc : Nat) :
    (truncMax idx maxc).length ≤ idx.length := by
  unfold truncMax
  split
  · exact (List.take_sublist _ _).length_le
  · exact Nat.le_refl _

theorem finalIdx_of_small {row : List ℚ} {cutoff : ℚ} {maxc minc : Nat}
    (h : (npWhere row cutoff).length ≤ minc) :
    finalIdx row cutoff maxc minc = List.range (minc + 1) := by
  unfold finalIdx fallbackMin
  rw [if_pos (Nat.le_trans (truncMax_length_le _ _) h)]

theorem edgeStep_err {ids : List (List Int)} {i : Nat} {idsRow : List Int}
    (dists : List (List ℚ)) (h : ids[i]? = some idsRow)
    {x : Nat} (hx : idsRow.length ≤ x) :
    ∀ acc, ∃ e, edgeStep ids dists i acc x = Except.error e := by
  intro acc
  refine ⟨"index out of range", ?_⟩
  simp only [edgeStep, getEntry_err h hx]

theorem edges_foldlM_ok {ids : List (List Int)} {dists : List (List ℚ)} {i : Nat}
    {idsRow : List Int} {row : List ℚ}
    (hI : ids[i]? = some idsRow) (hD : dists[i]? = some row) :
    ∀ (l : List Nat), (∀ x ∈ l, x < idsRow.length ∧ x < row.length) → ∀ acc,
      l.foldlM (edgeStep ids dists i) acc =
        Except.ok (l.foldl (fun acc x =>
          if idsRow.getD x 0 = (i : Int) then acc
          else acc ++ [((i : Int), idsRow.getD x 0, row.getD x 0)]) acc) := by
  intro l
  induction l with
  | nil => intro _ acc; rfl
  | cons x t ih =>
    intro hb acc
    obtain ⟨hxI, hxD⟩ := hb x (List.mem_cons_self x t)
    have hstep : edgeStep ids dists i acc x =
        Except.ok (if idsRow.getD x 0 = (i : Int) then acc
          else acc ++ [((i : Int), idsRow.getD x 0, row.getD x 0)]) := by
      simp only [edgeStep, getEntry_ok hI (getElem?_eq_some_getD hxI 0),
        getEntry_ok hD (getElem?_eq_some_getD hxD 0)]
      split
      · rfl
      · rfl
    simp only [List.foldlM_cons, hstep, List.foldl_cons]
    exact ih (fun y hy => hb y (List.mem_cons_of_mem x hy)) _

theorem rowEdges_ok_endpoints {ids : List (List Int)} {dists : List (List ℚ)}
    {cutoff : ℚ} {maxc minc i : Nat} {es : List (Int × Int × ℚ)}
    (hok : rowEdges ids dists cutoff maxc minc i = Except.ok es) :
    ∀ e ∈ es, e.1 = (i : Int) ∧ ∃ r ∈ ids, e.2.1 ∈ r := by
  unfold rowEdges at hok
  cases hgr : getRow dists i with
  | error e => rw [hgr] at hok; cases hok
  | ok row =>
    rw [hgr] at hok
    refine foldlM_ok_ind (edgeStep ids dists i)
      (fun acc => ∀ e ∈ acc, e.1 = (i : Int) ∧ ∃ r ∈ ids, e.2.1 ∈ r) _ []
      (by intro e he; cases he) ?_ es hok
    intro acc x acc2 _ hacc hstep
    unfold edgeStep at hstep
    cases hge : getEntry ids i x with
    | error e => simp only [hge] at hstep; cases hstep
    | ok id =>
      simp only [hge] at hstep
      by_cases hid : id = (i : Int)
      · rw [if_pos hid] at hstep
        cases hstep
        exact hacc
      · rw [if_neg hid] at hstep
        cases hgd : getEntry dists i x with
        | error e => simp only [hgd] at hstep; cases hstep
        | ok d =>
          simp only [hgd, Except.ok.injEq] at hstep
          subst hstep
          intro e he
          rcases List.mem_append.mp he with he1 | he2
          · exact hacc e he1
          · rcases List.mem_singleton.mp he2 with rfl
            exact ⟨rfl, getEntry_ok_mem hge⟩

theorem addNode_of_mem {nodes : List Int} {n : Int} (h : n ∈ nodes) :
    addNode nodes n = nodes := by
  unfold addNode
  rw [if_pos]
  exact List.elem_eq_true_of_mem h

theorem addEdge_nodes {g : PyGraph} {u v : Int} {w : ℚ}
    (hu : u ∈ g.nodes) (hv : v ∈ g.nodes) : (addEdge g u v w).nodes = g.nodes := by
  simp only [addEdge, addNode_of_mem hu, addNode_of_mem hv]

theorem addWeightedEdgesFrom_nodes :
    ∀ (es : List (Int × Int × ℚ)) (g : PyGraph),
      (∀ e ∈ es, e.1 ∈ g.nodes ∧ e.2.1 ∈ g.nodes) →
      (addWeightedEdgesFrom g es).nodes = g.nodes := by
  intro es
  induction es with
  | nil => intro g _; rfl
  | cons e t ih =>
    intro g h
    obtain ⟨hu, hv⟩ := h e (List.mem_cons_self e t)
    have hg2 : (addEdge g e.1 e.2.1 e.2.2).nodes = g.nodes := addEdge_nodes hu hv
    unfold addWeightedEdgesFrom
    simp only [List.foldl_cons]
    have := ih (addEdge g e.1 e.2.1 e.2.2) (by
      intro e2 he2
      rw [hg2]
      exact h e2 (List.mem_cons_of_mem e he2))
    unfold addWeightedEdgesFrom at this
    rw [this, hg2]

theorem mem_range_map_ofNat {z : Int} {n : Nat} (h0 : 0 ≤ z) (hn : z < (n : Int)) :
    z ∈ (List.range n).map Int.ofNat := by
  obtain ⟨m, rfl⟩ := Int.eq_ofNat_of_zero_le h0
  refine List.mem_map.mpr ⟨m, List.mem_range.mpr ?_, rfl⟩
  exact_mod_cast hn

/-! ### Claim theorems for create_distance_network -/

/-- C1: whenever the below-cutoff candidate count of node i is at or below
min_connections, the surviving candidate set is exactly the index range
0..min_connections (min_connections + 1 positions), and the edges node i
contributes connect i to the id entries found at those fallback positions,
with the corresponding distances as weights. -/
theorem fallback_replaces_candidates
    (ids : List (List Int)) (dists : List (List ℚ)) (cutoff : ℚ)
    (maxc minc i : Nat) (idsRow : List Int) (row : List ℚ)
    (hI : ids[i]? = some idsRow) (hD : dists[i]? = some row)
    (hfew : (npWhere row cutoff).length ≤ minc)
    (hci : minc + 1 ≤ idsRow.length) (hcd : minc + 1 ≤ row.length) :
    finalIdx row cutoff maxc minc = List.range (minc + 1) ∧
    rowEdges ids dists cutoff maxc minc i =
      Except.ok ((List.range (minc + 1)).foldl (fun acc x =>
        if idsRow.getD x 0 = (i : Int) then acc
        else acc ++ [((i : Int), idsRow.getD x 0, row.getD x 0)]) []) := by
  refine ⟨finalIdx_of_small hfew, ?_⟩
  unfold rowEdges
  simp only [getRow_ok hD]
  rw [finalIdx_of_small hfew]
  refine edges_foldlM_ok hI hD _ (fun x hx => ?_) []
  have hxm := List.mem_range.mp hx
  exact ⟨Nat.lt_of_lt_of_le hxm hci, Nat.lt_of_lt_of_le hxm hcd⟩

theorem fallback_replaces_candidates_witness :
    finalIdx [(9 : ℚ), 9] 0 25 1 = List.range (1 + 1) ∧
    rowEdges [[5, 7]] [[(9 : ℚ), 9]] 0 25 1 0 =
      Except.ok ((List.range (1 + 1)).foldl (fun acc x =>
        if [(5 : Int), 7].getD x 0 = ((0 : Nat) : Int) then acc
        else acc ++ [(((0 : Nat) : Int), [(5 : Int), 7].getD x 0,
          [(9 : ℚ), 9].getD x 0)]) []) := by
  exact fallback_replaces_candidates [[5, 7]] [[(9 : ℚ), 9]] 0 25 1 0 [5, 7]
    [(9 : ℚ), 9] rfl rfl (by decide) (by decide) (by decide)

/-- C2: whenever the below-cutoff candidate count of a row strictly exceeds
max_connections, the truncation stage keeps exactly the first
max_connections + 1 candidates; the candidate list is in strictly ascending
index order (so the kept ones are the lowest-index ones, not the closest);
and when min_connections does not exceed max_connections this truncated set
is the one the edge-adding step receives. -/
theorem truncation_keeps_first_by_index (row : List ℚ) (cutoff : ℚ) (maxc minc : Nat)
    (hmany : maxc < (npWhere row cutoff).length) :
    truncMax (npWhere row cutoff) maxc = (npWhere row cutoff).take (maxc + 1) ∧
    List.Pairwise (· < ·) (npWhere row cutoff) ∧
    (minc ≤ maxc →
      finalIdx row cutoff maxc minc = (npWhere row cutoff).take (maxc + 1)) := by
  have htr : truncMax (npWhere row cutoff) maxc = (npWhere row cutoff).take (maxc + 1) := by
    unfold truncMax
    rw [if_pos hmany]
  have hpw : List.Pairwise (· < ·) (npWhere row cutoff) := by
    unfold npWhere
    exact List.Pairwise.sublist (List.filter_sublist _) (List.pairwise_lt_range _)
  refine ⟨htr, hpw, fun hmm => ?_⟩
  unfold finalIdx
  rw [htr]
  unfold fallbackMin
  rw [if_neg]
  rw [List.length_take]
  omega

theorem truncation_keeps_first_by_index_witness :
    truncMax (npWhere [(0 : ℚ), 0, 0] 1) 1 = (npWhere [(0 : ℚ), 0, 0] 1).take (1 + 1) ∧
    List.Pairwise (· < ·) (npWhere [(0 : ℚ), 0, 0] 1) ∧
    (0 ≤ 1 → finalIdx [(0 : ℚ), 0, 0] 1 1 0 = (npWhere [(0 : ℚ), 0, 0] 1).take (1 + 1)) := by
  exact truncation_keeps_first_by_index [(0 : ℚ), 0, 0] 1 1 0 (by decide)

/-- C3: on every input the builder accepts, provided the id entries are
valid node identifiers in 0..N-1, the resulting graph has exactly the N
nodes 0..N-1 (in particular nodes that received no edge are still there). -/
theorem graph_has_all_nodes
    (ids : List (List Int)) (dists : List (List ℚ)) (cutoff : ℚ) (maxc minc : Nat)
    (g : PyGraph)
    (hvalid : ∀ r ∈ ids, ∀ z ∈ r, 0 ≤ z ∧ z < (ids.length : Int))
    (hok : create_distance_network ids dists cutoff maxc minc = Except.ok g) :
    g.nodes = (List.range ids.length).map Int.ofNat := by
  unfold create_distance_network at hok
  refine foldlM_ok_ind _ (fun g2 => g2.nodes = (List.range ids.length).map Int.ofNat)
    _ _ rfl ?_ g hok
  intro b i b2 hi hb hstep
  cases hre : rowEdges ids dists cutoff maxc minc i with
  | error e => simp only [hre] at hstep; cases hstep
  | ok es =>
    simp only [hre, Except.ok.injEq] at hstep
    subst hstep
    rw [addWeightedEdgesFrom_nodes es b ?_, hb]
    intro e he
    obtain ⟨he1, r, hr, hmem⟩ := rowEdges_ok_endpoints hre e he
    constructor
    · rw [hb, he1]
      exact List.mem_map.mpr ⟨i, hi, rfl⟩
    · rw [hb]
      obtain ⟨h0, hlt⟩ := hvalid r hr e.2.1 hmem
      exact mem_range_map_ofNat h0 hlt

theorem graph_has_all_nodes_witness :
    (PyGraph.mk [0, 1] [((0, 1), (0 : ℚ))]).nodes = (List.range 2).map Int.ofNat := by
  exact graph_has_all_nodes [[1, 0], [0, 1]] [[(0 : ℚ), 0], [0, 0]] 1 25 0
    (PyGraph.mk [0, 1] [((0, 1), (0 : ℚ))]) (by decide) rfl

/-- C6 (amended): whenever 1 ≤ N, min_connections ≥ N, and every row of the
id matrix and of the distance matrix has at most N columns (the shapes the
pipeline produces), the builder raises an error; the N = 0 case, excluded
here, is the counterexample to the unconditional claim. -/
theorem min_connections_ge_dimension_error
    (ids : List (List Int)) (dists : List (List ℚ)) (cutoff : ℚ) (maxc minc : Nat)
    (hN : 1 ≤ ids.length) (hminc : ids.length ≤ minc)
    (hD : ∀ r ∈ dists, r.length ≤ ids.length)
    (hI : ∀ r ∈ ids, r.length ≤ ids.length) :
    exceptOk (create_distance_network ids dists cutoff maxc minc) = false := by
  apply exceptOk_error
  obtain ⟨n, hn⟩ : ∃ n, ids.length = n + 1 := ⟨ids.length - 1, by omega⟩
  have hrow0 : ∃ e, rowEdges ids dists cutoff maxc minc 0 = Except.error e := by
    cases hd0 : dists[0]? with
    | none =>
      refine ⟨"index out of range", ?_⟩
      unfold rowEdges getRow
      simp only [hd0]
    | some row =>
      have hrlen : row.length ≤ minc :=
        Nat.le_trans (hD row (List.getElem?_mem hd0)) hminc
      have hfew : (npWhere row cutoff).length ≤ minc :=
        Nat.le_trans (npWhere_length_le row cutoff) hrlen
      have hi0 : ids[0]? = some (ids.getD 0 []) := getElem?_eq_some_getD (by omega) []
      have hilen : (ids.getD 0 []).length ≤ minc :=
        Nat.le_trans (hI _ (List.getElem?_mem hi0)) hminc
      have hx0 : (ids.getD 0 []).length ∈ List.range (minc + 1) :=
        List.mem_range.mpr (by omega)
      obtain ⟨e, he⟩ := foldlM_err (edgeStep ids dists 0) (ids.getD 0 []).length
        (edgeStep_err dists hi0 (Nat.le_refl _)) (List.range (minc + 1)) hx0 []
      refine ⟨e, ?_⟩
      unfold rowEdges
      simp only [getRow_ok hd0]
      rw [finalIdx_of_small hfew]
      exact he
  obtain ⟨e, he⟩ := hrow0
  refine ⟨e, ?_⟩
  unfold create_distance_network
  rw [hn, List.range_succ_eq_map]
  simp only [List.foldlM_cons, he]
  rfl

theorem min_connections_ge_dimension_error_witness :
    exceptOk (create_distance_network [[0]] [[(0 : ℚ)]] 1 25 1) = false := by
  exact min_connections_ge_dimension_error [[0]] [[(0 : ℚ)]] 1 25 1
    (by decide) (by decide) (by decide) (by decide)

/-- C6 counterexample: with zero nodes, min_connections = 2 is at least the
node count, yet the builder returns the empty graph without an error. -/
theorem min_connections_empty_input_ok :
    create_distance_network ([] : List (List Int)) ([] : List (List ℚ)) 0 25 2 =
      Except.ok (PyGraph.mk [] []) := rfl

/-! ### Claim theorems for IntersectMz and the intensity filters -/

theorem intersectMz_eq (A B : Spectrum) :
    IntersectMz A B =
      if (A.peaks.mz.toFinset ∪ B.peaks.mz.toFinset).card = 0 then 0
      else ((A.peaks.mz.toFinset ∩ B.peaks.mz.toFinset).card : ℚ) /
        ((A.peaks.mz.toFinset ∪ B.peaks.mz.toFinset).card : ℚ) := rfl

/-- C7: the spectrum overlap score is intersection size over union size of
the two exact mz sets, is 0 when both spectra are peakless, and always lies
in the interval 0..1. -/
theorem intersectMz_jaccard (A B : Spectrum) :
    (0 ≤ IntersectMz A B ∧ IntersectMz A B ≤ 1) ∧
    (A.peaks.mz = [] → B.peaks.mz = [] → IntersectMz A B = 0) ∧
    ((A.peaks.mz.toFinset ∪ B.peaks.mz.toFinset).card ≠ 0 →
      IntersectMz A B =
        ((A.peaks.mz.toFinset ∩ B.peaks.mz.toFinset).card : ℚ) /
          ((A.peaks.mz.toFinset ∪ B.peaks.mz.toFinset).card : ℚ)) := by
  have hsub : A.peaks.mz.toFinset ∩ B.peaks.mz.toFinset ⊆
      A.peaks.mz.toFinset ∪ B.peaks.mz.toFinset :=
    Finset.Subset.trans Finset.inter_subset_left Finset.subset_union_left
  refine ⟨?_, ?_, ?_⟩
  · rw [intersectMz_eq]
    by_cases hc : (A.peaks.mz.toFinset ∪ B.peaks.mz.toFinset).card = 0
    · rw [if_pos hc]
      exact ⟨le_refl 0, zero_le_one⟩
    · rw [if_neg hc]
      constructor
      · exact div_nonneg (Nat.cast_nonneg _) (Nat.cast_nonneg _)
      · rw [div_le_one (by exact_mod_cast Nat.pos_of_ne_zero hc)]
        exact_mod_cast Finset.card_le_card hsub
  · intro hA hB
    rw [intersectMz_eq, if_pos]
    rw [hA, hB]
    simp
  · intro hc
    rw [intersectMz_eq, if_neg hc]

theorem intersectMz_jaccard_witness :
    (0 ≤ IntersectMz (Spectrum.mk (Spikes.mk [100, 200, 300] []))
        (Spectrum.mk (Spikes.mk [200, 300, 400] [])) ∧
      IntersectMz (Spectrum.mk (Spikes.mk [100, 200, 300] []))
        (Spectrum.mk (Spikes.mk [200, 300, 400] [])) ≤ 1) ∧
    ((Spectrum.mk (Spikes.mk [(100 : ℚ), 200, 300] [])).peaks.mz = [] →
      (Spectrum.mk (Spikes.mk [(200 : ℚ), 300, 400] [])).peaks.mz = [] →
      IntersectMz (Spectrum.mk (Spikes.mk [100, 200, 300] []))
        (Spectrum.mk (Spikes.mk [200, 300, 400] [])) = 0) ∧
    (((Spectrum.mk (Spikes.mk [(100 : ℚ), 200, 300] [])).peaks.mz.toFinset ∪
        (Spectrum.mk (Spikes.mk [(200 : ℚ), 300, 400] [])).peaks.mz.toFinset).card ≠ 0 →
      IntersectMz (Spectrum.mk (Spikes.mk [100, 200, 300] []))
          (Spectrum.mk (Spikes.mk [200, 300, 400] [])) =
        (((Spectrum.mk (Spikes.mk [(100 : ℚ), 200, 300] [])).peaks.mz.toFinset ∩
          (Spectrum.mk (Spikes.mk [(200 : ℚ), 300, 400] [])).peaks.mz.toFinset).card : ℚ) /
        (((Spectrum.mk (Spikes.mk [(100 : ℚ), 200, 300] [])).peaks.mz.toFinset ∪
          (Spectrum.mk (Spikes.mk [(200 : ℚ), 300, 400] [])).peaks.mz.toFinset).card : ℚ)) := by
  exact intersectMz_jaccard (Spectrum.mk (Spikes.mk [100, 200, 300] []))
    (Spectrum.mk (Spikes.mk [200, 300, 400] []))

/-- C9: a None input spectrum makes both peak filters return None
immediately, with the heap untouched and no error, for every choice of the
intensity bounds, including inconsistent ones. -/
theorem none_input_passthrough :
    ∀ (h : Heap) (f1 t1 f2 t2 : ℚ),
      select_by_intensity h none f1 t1 = Except.ok (h, none) ∧
      select_by_relative_intensity h none f2 t2 = Except.ok (h, none) :=
  fun _ _ _ _ _ => ⟨rfl, rfl⟩

/-- C10: for every non-None input spectrum, whenever a filter call returns,
the heap cell of the input spectrum still holds the original peaks, and the
returned reference is a freshly allocated clone (a different address)
holding the filtered peaks. -/
theorem filters_leave_input_unchanged (h : Heap) (a : Nat) (s : Spectrum)
    (hs : h[a]? = some s) (f1 t1 f2 t2 : ℚ) :
    (∀ h2 r, select_by_intensity h (some a) f1 t1 = Except.ok (h2, r) →
      h2[a]? = some s ∧ r = some h.length ∧ h.length ≠ a ∧
      h2[h.length]? = some (intensityFilter s f1 t1)) ∧
    (∀ h2 r, select_by_relative_intensity h (some a) f2 t2 = Except.ok (h2, r) →
      h2[a]? = some s ∧ r = some h.length ∧ h.length ≠ a ∧
      h2[h.length]? = some (relativeFilter s f2 t2)) := by
  have ha : a < h.length := by
    by_contra hlt
    rw [List.getElem?_eq_none (by omega)] at hs
    cases hs
  have hne : h.length ≠ a := by omega
  constructor
  · intro h2 r hcall
    unfold select_by_intensity at hcall
    simp only [hs] at hcall
    by_cases hft : f1 ≤ t1
    · rw [if_pos hft] at hcall
      simp only [Except.ok.injEq, Prod.mk.injEq] at hcall
      obtain ⟨hh2, hr⟩ := hcall
      subst hh2
      refine ⟨?_, hr.symm, hne, ?_⟩
      · rw [List.getElem?_set_ne hne, List.getElem?_append_left ha]
        exact hs
      · refine List.getElem?_set_self ?_
        simp
    · rw [if_neg hft] at hcall
      cases hcall
  · intro h2 r hcall
    unfold select_by_relative_intensity at hcall
    simp only [hs] at hcall
    by_cases h0f : 0 ≤ f2
    · rw [if_neg (by exact not_not_intro h0f)] at hcall
      by_cases ht1 : t2 ≤ 1
      · rw [if_neg (by exact not_not_intro ht1)] at hcall
        by_cases hft : f2 ≤ t2
        · rw [if_neg (by exact not_not_intro hft)] at hcall
          cases hints : (Spectrum.clone s).peaks.intensities with
          | nil =>
            rw [hints] at hcall
            cases hcall
          | cons x xs =>
            rw [hints] at hcall
            simp only [Except.ok.injEq, Prod.mk.injEq] at hcall
            obtain ⟨hh2, hr⟩ := hcall
            subst hh2
            refine ⟨?_, hr.symm, hne, ?_⟩
            · rw [List.getElem?_set_ne hne, List.getElem?_append_left ha]
              exact hs
            · refine List.getElem?_set_self ?_
              simp
        · rw [if_pos hft] at hcall
          cases hcall
      · rw [if_pos ht1] at hcall
        cases hcall
    · rw [if_pos h0f] at hcall
      cases hcall

theorem filters_leave_input_unchanged_witness :
    (∀ h2 r, select_by_intensity [Spectrum.mk (Spikes.mk [100, 200] [5, 50])]
        (some 0) 10 200 = Except.ok (h2, r) →
      h2[0]? = some (Spectrum.mk (Spikes.mk [100, 200] [5, 50])) ∧
      r = some [Spectrum.mk (Spikes.mk [(100 : ℚ), 200] [5, 50])].length ∧
      [Spectrum.mk (Spikes.mk [(100 : ℚ), 200] [5, 50])].length ≠ 0 ∧
      h2[[Spectrum.mk (Spikes.mk [(100 : ℚ), 200] [5, 50])].length]? =
        some (intensityFilter (Spectrum.mk (Spikes.mk [100, 200] [5, 50])) 10 200)) ∧
    (∀ h2 r, select_by_relative_intensity [Spectrum.mk (Spikes.mk [100, 200] [5, 50])]
        (some 0) 0 1 = Except.ok (h2, r) →
      h2[0]? = some (Spectrum.mk (Spikes.mk [100, 200] [5, 50])) ∧
      r = some [Spectrum.mk (Spikes.mk [(100 : ℚ), 200] [5, 50])].length ∧
      [Spectrum.mk (Spikes.mk [(100 : ℚ), 200] [5, 50])].length ≠ 0 ∧
      h2[[Spectrum.mk (Spikes.mk [(100 : ℚ), 200] [5, 50])].length]? =
        some (relativeFilter (Spectrum.mk (Spikes.mk [100, 200] [5, 50])) 0 1)) := by
  exact filters_leave_input_unchanged [Spectrum.mk (Spikes.mk [100, 200] [5, 50])]
    0 (Spectrum.mk (Spikes.mk [100, 200] [5, 50])) rfl 10 200 0 1

/-! ### Claim theorems for calculate_similarities -/

theorem getD_map {α β : Type} (f : α → β) {l : List α} {i : Nat} (hi : i < l.length)
    (d : α) (d2 : β) : (l.map f).getD i d2 = f (l.getD i d) := by
  rw [List.getD_eq_getElem?_getD, List.getElem?_map, List.getElem?_eq_getElem hi]
  rw [List.getD_eq_getElem?_getD, List.getElem?_eq_getElem hi]
  rfl

theorem argsort_conforms : ∀ row : List ℚ, IsArgsortOf row (argsort row) := by
  intro row
  refine ⟨List.perm_insertionSort _ _, ?_⟩
  refine List.Pairwise.imp ?_ (List.sorted_insertionSort (rankLe row) _)
  intro a b hab
  have h2 : row.getD a 0 < row.getD b 0 ∨ (row.getD a 0 = row.getD b 0 ∧ a ≤ b) := by
    simpa [rankLe, rankLeB, Bool.or_eq_true, Bool.and_eq_true, decide_eq_true_eq]
      using hab
  rcases h2 with h | ⟨h, -⟩
  · exact le_of_lt h
  · exact le_of_eq h

theorem calcWith_ok (asort : List ℚ → List Nat) (v : List (List ℚ))
    (metric : List ℚ → List ℚ → ℚ) (k : Nat) (hne : v.length ≠ 0)
    (hdim : v.all (fun w => w.length == (v.headD []).length) = true)
    (hk : k ≤ v.length) :
    calculate_similaritiesWith asort v metric (k : Int) =
      Except.ok (topkIdsWith asort (cdistM metric v) k,
        topkSimsWith asort (cdistM metric v) k, 1 - npMean (cdistM metric v)) := by
  unfold calculate_similaritiesWith
  rw [if_neg hne, hdim]
  simp only [Bool.not_true, Bool.false_eq_true, if_false, Int.toNat_ofNat]
  rw [if_neg (by omega : ¬ ((k : Int) < 0)), if_neg (by omega : ¬ (v.length < k))]

/-- C4 counterexample: on the tied distance row [0, 0] the ranking [1, 0]
satisfies everything the source's row.argsort() call guarantees (a
permutation of the columns in non-decreasing value order), yet the selector
built on it picks column 1 for k = 1 while lower-index tie-breaking picks
column 0: the claimed tie order is not ensured by the program. -/
theorem topk_tie_break_not_guaranteed :
    IsArgsortOf [(0 : ℚ), 0] [1, 0] ∧
    (topkIdsWith (fun _ => [1, 0])
      (cdistM (fun _ _ => 0) [[(0 : ℚ)], [0]]) 1).getD 0 [] = [1] ∧
    (topkIdsWith argsort (cdistM (fun _ _ => 0) [[(0 : ℚ)], [0]]) 1).getD 0 [] = [0] ∧
    ([1] : List Nat) ≠ [0] := by
  refine ⟨⟨?_, ?_⟩, rfl, rfl, by decide⟩
  · decide
  · decide

/-- C4 (amended): for a nonempty consistent vector set, 1 ≤ k ≤ N, and any
ranking implementation satisfying the contract of the source's argsort call
(numpy leaves the order of tied distances unspecified), the call succeeds;
row i's selection is the first k positions of the full ranking of distance
row i: exactly k entries, all distinct, sorted by non-decreasing distance,
every selected distance at most every unselected distance, the ranking
covers all N columns so the self column i is not excluded, and the score
row pairs each selected index with 1 minus its distance.  The original
claim's lower-index tie-break is dropped: it is refuted by the separate
counterexample. -/
theorem topk_per_row_any_tie_order (asort : List ℚ → List Nat)
    (hconf : ∀ row, IsArgsortOf row (asort row))
    (v : List (List ℚ)) (metric : List ℚ → List ℚ → ℚ) (k : Nat)
    (hne : v.length ≠ 0)
    (hdim : v.all (fun w => w.length == (v.headD []).length) = true)
    (_hk1 : 1 ≤ k) (hkN : k ≤ v.length) :
    calculate_similaritiesWith asort v metric (k : Int) =
      Except.ok (topkIdsWith asort (cdistM metric v) k,
        topkSimsWith asort (cdistM metric v) k, 1 - npMean (cdistM metric v)) ∧
    ∀ i row sel, i < v.length →
      row = (cdistM metric v).getD i [] →
      sel = (asort row).take k →
      (topkIdsWith asort (cdistM metric v) k).getD i [] = sel ∧
      sel.length = k ∧
      sel.Nodup ∧
      List.Pairwise (fun a b => row.getD a 0 ≤ row.getD b 0) sel ∧
      i ∈ asort row ∧
      (∀ a ∈ sel, ∀ b, b < v.length → b ∉ sel → row.getD a 0 ≤ row.getD b 0) ∧
      (topkSimsWith asort (cdistM metric v) k).getD i [] =
        sel.map (fun j => 1 - row.getD j 0) := by
  refine ⟨calcWith_ok asort v metric k hne hdim hkN, ?_⟩
  intro i row sel hi hrow hsel
  have hcd : i < (cdistM metric v).length := by
    unfold cdistM
    rw [List.length_map]
    exact hi
  have hrlen : row.length = v.length := by
    rw [hrow]
    unfold cdistM
    rw [getD_map _ hi [] []]
    exact List.length_map _ _
  have hperm : (asort row).Perm (List.range row.length) := (hconf row).1
  have hsort : List.Pairwise (fun a b => row.getD a 0 ≤ row.getD b 0) (asort row) :=
    (hconf row).2
  have halen : (asort row).length = row.length := by
    rw [hperm.length_eq, List.length_range]
  refine ⟨?_, ?_, ?_, ?_, ?_, ?_, ?_⟩
  · unfold topkIdsWith
    rw [getD_map _ hcd [] [], ← hrow]
    exact hsel.symm
  · rw [hsel, List.length_take, halen, hrlen]
    omega
  · rw [hsel]
    exact List.Nodup.sublist (List.take_sublist _ _)
      ((List.Perm.nodup_iff hperm).mpr (List.nodup_range _))
  · rw [hsel]
    exact List.Pairwise.sublist (List.take_sublist _ _) hsort
  · rw [List.Perm.mem_iff hperm, List.mem_range, hrlen]
    exact hi
  · intro a ha b hb hbnot
    have hsplit : asort row = sel ++ (asort row).drop k := by
      rw [hsel, List.take_append_drop]
    have hbmem : b ∈ asort row := by
      rw [List.Perm.mem_iff hperm, List.mem_range, hrlen]
      exact hb
    have hbdrop : b ∈ (asort row).drop k := by
      rw [hsplit] at hbmem
      rcases List.mem_append.mp hbmem with h1 | h2
      · exact absurd h1 hbnot
      · exact h2
    have hp2 : List.Pairwise (fun a b => row.getD a 0 ≤ row.getD b 0)
        (sel ++ (asort row).drop k) := by
      rw [← hsplit]
      exact hsort
    exact (List.pairwise_append.mp hp2).2.2 a ha b hbdrop
  · unfold topkSimsWith
    rw [getD_map _ hcd [] [], ← hrow, hsel]

theorem topk_per_row_any_tie_order_witness :
    calculate_similaritiesWith argsort [[(1 : ℚ)]] (fun _ _ => 0) ((1 : Nat) : Int) =
      Except.ok (topkIdsWith argsort (cdistM (fun _ _ => 0) [[(1 : ℚ)]]) 1,
        topkSimsWith argsort (cdistM (fun _ _ => 0) [[(1 : ℚ)]]) 1,
        1 - npMean (cdistM (fun _ _ => 0) [[(1 : ℚ)]])) ∧
    ∀ i row sel, i < [[(1 : ℚ)]].length →
      row = (cdistM (fun _ _ => 0) [[(1 : ℚ)]]).getD i [] →
      sel = (argsort row).take 1 →
      (topkIdsWith argsort (cdistM (fun _ _ => 0) [[(1 : ℚ)]]) 1).getD i [] = sel ∧
      sel.length = 1 ∧
      sel.Nodup ∧
      List.Pairwise (fun a b => row.getD a 0 ≤ row.getD b 0) sel ∧
      i ∈ argsort row ∧
      (∀ a ∈ sel, ∀ b, b < [[(1 : ℚ)]].length → b ∉ sel →
        row.getD a 0 ≤ row.getD b 0) ∧
      (topkSimsWith argsort (cdistM (fun _ _ => 0) [[(1 : ℚ)]]) 1).getD i [] =
        sel.map (fun j => 1 - row.getD j 0) := by
  exact topk_per_row_any_tie_order argsort argsort_conforms [[(1 : ℚ)]]
    (fun _ _ => 0) 1 (by decide) (by decide) (by decide) (by decide)

end Matchms
